import Mathlib

/-!
Verification of the release-resolution, patch, and zone-set pipeline of
`platform_system_timezone` against its natural-language specification.

The Python sources are shallowly embedded:

* `patches.py` — `applyPatchesTo`, `repack` and `Apply`.  External effects
  (the directory listing, the exit code of the `patch` tool, the bytes the
  `tar | gzip` pipeline produces) are explicit parameters; the published
  directories are threaded through a `PatchWorld` record.
* `update-tzdata.py` — `WriteSetupFile`, embedded as a function from the
  concatenated lines of the region files to the emitted setup lines, in an
  `Except` monad because Python list indexing can raise `IndexError`.
* `download-iana-files.py` — `FindRemoteTar` and
  `DownloadAndReplaceLocalFiles`, over an explicit remote listing and an
  explicit local published-state record.
-/

/-- Splitting a line into whitespace-delimited fields, the model of Python's
`str.split()` with no arguments: runs of whitespace separate the fields and
empty fields are dropped.  The second argument accumulates the current field
in reverse. -/
def splitWs : List Char → List Char → List String
  | [], cur => if cur = [] then [] else [String.mk cur.reverse]
  | c :: cs, cur =>
    if c.isWhitespace then
      if cur = [] then splitWs cs [] else String.mk cur.reverse :: splitWs cs []
    else splitWs cs (c :: cur)

/-- The whitespace-delimited fields of a line, as in Python `line.split()`. -/
def words (s : String) : List String := splitWs s.toList []

/-! ## Patch file names (`patches.py`)

`applyPatchesTo` recognises patch files with `re.match('\d+-(.*)\.patch', f)`.
`re.match` anchors at the start of the string only, `\d+` greedily takes the
maximal leading digit run (the next pattern character `-` is not a digit), and
the greedy group `(.*)` captures up to the *last* position where the literal
`.patch` can start. -/

/-- The characters of the literal `.patch` required after the captured group. -/
def patchSuffix : List Char := ['.', 'p', 'a', 't', 'c', 'h']

/-- The greatest index `i` such that `.patch` occurs in `t` starting at `i`
(the greedy choice of Python's `(.*)\.patch`), if any. -/
def lastDotPatch (t : List Char) : Option Nat :=
  ((List.range (t.length + 1)).filter (fun i => patchSuffix.isPrefixOf (t.drop i))).getLast?

/-- The model of `re.match('\d+-(.*)\.patch', name)` from `applyPatchesTo`:
`some g` when the name matches with captured group `g` (the path of the file
to patch, relative to the working tree), `none` when the name is skipped.
Because `re.match` has no end anchor, trailing characters after `.patch` are
accepted. -/
def patchTarget (name : String) : Option String :=
  let cs := name.toList
  let ds := cs.takeWhile (fun c => c.isDigit)
  if ds = [] then none
  else
    match cs.drop ds.length with
    | '-' :: t =>
      match lastDotPatch t with
      | some i => some (String.mk (t.take i))
      | none => none
    | _ => none

/-- The numeric priority embedded in a patch file name: the value of its
leading digit run. -/
def patchPriority (name : String) : Nat :=
  (name.toList.takeWhile (fun c => c.isDigit)).foldl (fun a c => 10 * a + (c.toNat - 48)) 0

/-- Spec-side definition, for comparison with `patchTarget`: the spec's patch
identifier convention says a patch file name has the exact shape
`<numeric-priority>-<targetRelativePath>.<patch-extension>`, i.e. a non-empty
digit run, a dash, the target path, and the terminal extension `.patch` — with
nothing after it. -/
def fullPatchName (name : String) : Bool :=
  let cs := name.toList
  let ds := cs.takeWhile (fun c => c.isDigit)
  decide (ds ≠ []) &&
    match cs.drop ds.length with
    | '-' :: t => patchSuffix.isSuffixOf t
    | _ => false

/-! ## `applyPatchesTo` (`patches.py` lines 47–62)

The directory listing (`os.listdir`, whose order the OS does not constrain) and
the exit code of the external `patch` invocation are parameters.  The result
records `was_patched` together with the ordered sequence of patch files whose
`patch` invocation ran and succeeded; a non-zero exit code aborts the run
(`sys.exit`), modelled as `Except.error` carrying the offending file name. -/

def applyGo (pexit : String → Nat) : List String → Bool → List String → Except String (Bool × List String)
  | [], wasPatched, acc => .ok (wasPatched, acc.reverse)
  | f :: fs, wasPatched, acc =>
    match patchTarget f with
    | some _ =>
      if pexit f ≠ 0 then .error f
      else applyGo pexit fs true (f :: acc)
    | none => applyGo pexit fs wasPatched acc

/-- The model of `applyPatchesTo`: `listing` is the directory listing of the
patches directory in the order the OS returns it, `pexit` gives the exit code
of `patch <target> <patchfile>` for each patch file. -/
def applyPatchesTo (listing : List String) (pexit : String → Nat) :
    Except String (Bool × List String) :=
  applyGo pexit listing false []

/-! ## `Apply` (`patches.py` lines 81–97) -/

/-- The externally visible state `Apply` can read or write: the published
original-archive directory, the published patched-archive directory (both as
association lists from file name to file bytes), and the record of `repack`
invocations performed (the destination archive names, in order). -/
structure PatchWorld where
  originalDir : List (String × List Nat)
  patchedDir : List (String × List Nat)
  repackCalls : List String
  deriving DecidableEq, Repr

/-- The base name of a path: everything after the last `/`, the model of
`s[s.rfind('/') + 1:]`. -/
def baseName (s : String) : String :=
  String.mk ((s.toList.reverse.takeWhile (fun c => c ≠ '/')).reverse)

/-- The model of `Apply`.  `origTarPath` is the archive path found in the
original-data directory; `listing` the patches-directory listing; `pexit` the
patch tool's exit codes; `repackBytes` the archive bytes the external
`tar | gzip` pipeline would produce; `tarExit` its exit code.  `Apply` first
empties the published patched directory, then applies the patches, and only
repacks (recorded in `repackCalls`) when at least one patch applied.  A
`sys.exit` is an `Except.error` carrying the message and the world state at
exit time. -/
def Apply (w : PatchWorld) (origTarPath : String) (listing : List String)
    (pexit : String → Nat) (repackBytes : List Nat) (tarExit : Nat) :
    Except (String × PatchWorld) (String × PatchWorld) :=
  let w1 : PatchWorld := { w with patchedDir := [] }
  match applyPatchesTo listing pexit with
  | .error f => .error ("Failed to apply " ++ f ++ ". Halting", w1)
  | .ok (wasPatched, _) =>
    if wasPatched then
      let archiveName := baseName origTarPath
      let w2 : PatchWorld := { w1 with repackCalls := w1.repackCalls ++ [archiveName] }
      if tarExit ≠ 0 then .error ("Failed to repack patched files. Halting", w2)
      else .ok ("patched/" ++ archiveName,
                { w2 with patchedDir := [(archiveName, repackBytes)] })
    else .ok (origTarPath, w1)

/-- Lexicographic comparison of character lists by code point, the model of
Python's string comparison `a <= b`: the empty list precedes everything, and
otherwise the head code points decide, ties recursing on the tails. -/
def charListLe : List Char → List Char → Bool
  | [], _ => true
  | _ :: _, [] => false
  | a :: as, b :: bs =>
    if a.toNat < b.toNat then true
    else if b.toNat < a.toNat then false
    else charListLe as bs

/-- String ordering by code points, the model of Python's `a <= b` on
strings (also the key of Python's `sorted`). -/
def strLe (a b : String) : Prop := charListLe a.toList b.toList = true

/-- Reversed string ordering, the key of Python's `sort(reverse=True)`. -/
def strGe (a b : String) : Prop := strLe b a

instance : DecidableRel strLe :=
  fun a b => inferInstanceAs (Decidable (charListLe a.toList b.toList = true))

instance : DecidableRel strGe :=
  fun a b => inferInstanceAs (Decidable (strLe b a))

theorem charEq_of_toNat_eq {a b : Char} (h : a.toNat = b.toNat) : a = b := by
  have hb := Char.ofNat_toNat a
  rw [h, Char.ofNat_toNat] at hb
  exact hb.symm

theorem charListLe_refl : ∀ as, charListLe as as = true := by
  intro as
  induction as with
  | nil => rfl
  | cons a as ih => simp [charListLe, Nat.lt_irrefl, ih]

theorem charListLe_total : ∀ as bs, charListLe as bs = true ∨ charListLe bs as = true := by
  intro as
  induction as with
  | nil => intro bs; left; rfl
  | cons a as ih =>
    intro bs
    cases bs with
    | nil => right; rfl
    | cons b bs =>
      simp only [charListLe]
      rcases Nat.lt_trichotomy a.toNat b.toNat with h | h | h
      · left; simp [h]
      · have hab : ¬ a.toNat < b.toNat := by omega
        have hba : ¬ b.toNat < a.toNat := by omega
        simpa [hab, hba] using ih bs
      · right; simp [h]

theorem charListLe_antisymm : ∀ as bs, charListLe as bs = true →
    charListLe bs as = true → as = bs := by
  intro as
  induction as with
  | nil =>
    intro bs _ h2
    cases bs with
    | nil => rfl
    | cons b bs => simp [charListLe] at h2
  | cons a as ih =>
    intro bs h1 h2
    cases bs with
    | nil => simp [charListLe] at h1
    | cons b bs =>
      simp only [charListLe] at h1 h2
      rcases Nat.lt_trichotomy a.toNat b.toNat with h | h | h
      · have hba : ¬ b.toNat < a.toNat := by omega
        rw [if_neg hba, if_pos h] at h2
        exact absurd h2 (by simp)
      · have hab : ¬ a.toNat < b.toNat := by omega
        have hba : ¬ b.toNat < a.toNat := by omega
        rw [if_neg hab, if_neg hba] at h1
        rw [if_neg hba, if_neg hab] at h2
        rw [charEq_of_toNat_eq h, ih bs h1 h2]
      · have hab : ¬ a.toNat < b.toNat := by omega
        rw [if_neg hab, if_pos h] at h1
        exact absurd h1 (by simp)

theorem charListLe_trans : ∀ as bs cs, charListLe as bs = true →
    charListLe bs cs = true → charListLe as cs = true := by
  intro as
  induction as with
  | nil => intro bs cs _ _; rfl
  | cons a as ih =>
    intro bs cs h1 h2
    cases bs with
    | nil => simp [charListLe] at h1
    | cons b bs =>
      cases cs with
      | nil => simp [charListLe] at h2
      | cons c cs =>
        simp only [charListLe] at h1 h2 ⊢
        by_cases hab : a.toNat < b.toNat
        · by_cases hbc : b.toNat < c.toNat
          · have hac : a.toNat < c.toNat := by omega
            simp [hac]
          · by_cases hcb : c.toNat < b.toNat
            · rw [if_neg hbc, if_pos hcb] at h2
              exact absurd h2 (by simp)
            · have hac : a.toNat < c.toNat := by omega
              simp [hac]
        · by_cases hba : b.toNat < a.toNat
          · rw [if_neg hab, if_pos hba] at h1
            exact absurd h1 (by simp)
          · rw [if_neg hab, if_neg hba] at h1
            by_cases hbc : b.toNat < c.toNat
            · have hac : a.toNat < c.toNat := by omega
              simp [hac]
            · by_cases hcb : c.toNat < b.toNat
              · rw [if_neg hbc, if_pos hcb] at h2
                exact absurd h2 (by simp)
              · rw [if_neg hbc, if_neg hcb] at h2
                have hac : ¬ a.toNat < c.toNat := by omega
                have hca : ¬ c.toNat < a.toNat := by omega
                rw [if_neg hac, if_neg hca]
                exact ih bs cs h1 h2

theorem strLe_refl (a : String) : strLe a a := charListLe_refl a.toList

theorem strLe_total (a b : String) : strLe a b ∨ strLe b a :=
  charListLe_total a.toList b.toList

theorem strLe_antisymm {a b : String} (h1 : strLe a b) (h2 : strLe b a) : a = b :=
  String.toList_inj.mp (charListLe_antisymm a.toList b.toList h1 h2)

theorem strLe_trans {a b c : String} (h1 : strLe a b) (h2 : strLe b c) : strLe a c :=
  charListLe_trans a.toList b.toList c.toList h1 h2

instance : IsTotal String strLe := ⟨strLe_total⟩

instance : IsTrans String strLe := ⟨fun _ _ _ => strLe_trans⟩

instance : IsTotal String strGe := ⟨fun a b => strLe_total b a⟩

instance : IsTrans String strGe := ⟨fun _ _ _ hab hbc => strLe_trans hbc hab⟩

/-! ## `repack` (`patches.py` lines 65–78)

`repack` first runs `touch -am -d "1970-01-01 00:00:00" f` on every file of the
working tree, then
`tar --format=pax --pax-option='delete=atime,delete=ctime' --numeric-owner
--owner=0 --group=0 --mode=go+u,go-w --sort=name -cf - * | gzip -9n`.
A working-tree file is an entry with a name, content bytes, access and
modification times, numeric owner and group, and a permission mode; the
archive is the list of pax records the `tar` invocation emits (name-sorted,
atime/ctime deleted, owner and group forced to `0`, mode transformed by
`go+u,go-w`, mtime as normalised by the `touch`), wrapped in the fixed
`gzip -9 -n` compression (no embedded timestamp). -/

structure TarEntry where
  name : String
  content : List Nat
  atime : Nat
  mtime : Nat
  owner : Nat
  group : Nat
  mode : Nat
  deriving DecidableEq, Repr

/-- The `--mode=go+u,go-w` transformation: group and other gain the user
permission bits, then lose the write bit; the user and special bits are kept. -/
def modePolicy (mode : Nat) : Nat :=
  let u := mode / 64 % 8
  let g := mode / 8 % 8
  let o := mode % 8
  (mode / 512) * 512 + u * 64 + ((g ||| u) &&& 5) * 8 + ((o ||| u) &&& 5)

/-- The `touch -am -d "1970-01-01 ..."` loop: both times of every entry are
set to the fixed epoch. -/
def touchEpoch (e : TarEntry) : TarEntry := { e with atime := 0, mtime := 0 }

/-- One entry of the pax archive `tar` emits (atime/ctime are deleted by the
`--pax-option`, so they do not appear). -/
structure PaxRecord where
  name : String
  mode : Nat
  owner : Nat
  group : Nat
  mtime : Nat
  content : List Nat
  deriving DecidableEq, Repr

/-- The pax record `tar --numeric-owner --owner=0 --group=0 --mode=go+u,go-w`
emits for one working-tree entry. -/
def paxOf (e : TarEntry) : PaxRecord :=
  ⟨e.name, modePolicy e.mode, 0, 0, e.mtime, e.content⟩

/-- Name ordering on tar entries, the key of `--sort=name`. -/
def entryLe (a b : TarEntry) : Prop := strLe a.name b.name

instance : DecidableRel entryLe := fun a b => inferInstanceAs (Decidable (strLe a.name b.name))

instance : IsTotal TarEntry entryLe := ⟨fun a b => strLe_total a.name b.name⟩

instance : IsTrans TarEntry entryLe := ⟨fun _ _ _ hab hbc => strLe_trans hab hbc⟩

/-- The sorted pax record list `repack`'s `tar` invocation produces from a
working tree (listed in OS order): every entry is touched to the epoch, the
entries are emitted sorted by name, and each becomes its pax record. -/
def repackRecords (tree : List TarEntry) : List PaxRecord :=
  (List.insertionSort entryLe (tree.map touchEpoch)).map paxOf

/-- The bytes of a repacked archive: the pax record stream compressed with the
fixed parameters `gzip -9 -n` (level 9, no file name, no timestamp), which is
a deterministic injective encoding of the stream. -/
inductive ArchiveBytes where
  | gzip9NoTimestamp : List PaxRecord → ArchiveBytes
  deriving DecidableEq, Repr

/-- The model of `repack` on a working tree. -/
def repack (tree : List TarEntry) : ArchiveBytes :=
  ArchiveBytes.gzip9NoTimestamp (repackRecords tree)

/-- The environment-independent view of a working-tree entry: its name, its
content bytes, and its permission mode — exactly the data of the entry that
survives into the archive.  Times, owner and group are the data the
surrounding environment (clock, user) influences. -/
def normView (e : TarEntry) : String × List Nat × Nat := (e.name, e.content, e.mode)

/-- The pax record determined by the environment-independent view alone. -/
def recOf : String × List Nat × Nat → PaxRecord
  | (n, c, m) => ⟨n, modePolicy m, 0, 0, 0, c⟩

/-! ## `WriteSetupFile` (`update-tzdata.py` lines 55–77)

The region files are read in the fixed `regions` order and each line is
`split()`; a `Link` first field reads `fields[1]` and `fields[2]`, a `Zone`
first field reads `fields[1]` — Python raises `IndexError` when the index is
out of range, modelled by `Except.error`.  The collected link lines and zone
names are then deduplicated and sorted (`sorted(set(...))`) and written links
first, zones second. -/

/-- Processing of one region-file line by `WriteSetupFile`'s loop body, over
the accumulated `(links, zones)` lists. -/
def setupStep (acc : List String × List String) (line : String) :
    Except String (List String × List String) :=
  match words line with
  | [] => .ok acc
  | f0 :: rest =>
    if f0 = "Link" then
      match rest with
      | target :: name :: _ =>
        .ok (acc.1 ++ ["Link " ++ target ++ " " ++ name], acc.2 ++ [name])
      | _ => .error "IndexError: list index out of range"
    else if f0 = "Zone" then
      match rest with
      | name :: _ => .ok (acc.1, acc.2 ++ [name])
      | _ => .error "IndexError: list index out of range"
    else .ok acc

/-- The whole collection loop of `WriteSetupFile` over a list of lines. -/
def collectSetup : List String → List String × List String → Except String (List String × List String)
  | [], acc => .ok acc
  | l :: ls, acc =>
    match setupStep acc l with
    | .error e => .error e
    | .ok acc2 => collectSetup ls acc2

/-- All lines of the region files, in region order (the nested
`for region in regions: for line in open(region)`). -/
def allLines (files : List (List String)) : List String := files.foldr (· ++ ·) []

/-- The model of Python's `sorted(set(l))` for strings: the distinct elements
in ascending lexical order. -/
def sortDedup (l : List String) : List String := List.insertionSort strLe l.dedup

/-- The model of `WriteSetupFile`, from the lines of the region files (in the
fixed region order) to the lines written to the setup file: first the
deduplicated sorted link lines, then the deduplicated sorted zone names.  The
intermediate `zones.sort()` of the Python is dropped: `sorted(set(zones))`
does not depend on it. -/
def WriteSetupFile (files : List (List String)) : Except String (List String) :=
  match collectSetup (allLines files) ([], []) with
  | .error e => .error e
  | .ok (links, zones) => .ok (sortDedup links ++ sortDedup zones)

/-- Spec-side definition, for comparison with `WriteSetupFile`: per the spec,
a `Link <target> <name>` record contributes the pair, rendered as the link
line `Link <target> <name>`; any other line contributes no link. -/
def linkLineOfLine (line : String) : Option String :=
  match words line with
  | [] => none
  | f0 :: rest =>
    if f0 = "Link" then
      match rest with
      | target :: name :: _ => some ("Link " ++ target ++ " " ++ name)
      | _ => none
    else none

/-- Spec-side definition: the zone names one line contributes — a
`Zone <name>` record contributes `<name>`, and a `Link <target> <name>` record
also contributes its alias `<name>` (a link is itself an addressable alias);
any other line contributes none. -/
def zoneNamesOfLine (line : String) : List String :=
  match words line with
  | [] => []
  | f0 :: rest =>
    if f0 = "Link" then
      match rest with
      | _ :: name :: _ => [name]
      | _ => []
    else if f0 = "Zone" then
      match rest with
      | name :: _ => [name]
      | _ => []
    else []

/-- Spec-side definition: all link lines the region lines contribute, in input
order, with repetitions. -/
def specLinkLines (ls : List String) : List String :=
  ls.filterMap linkLineOfLine

/-- Spec-side definition: all zone names the region lines contribute, in input
order, with repetitions. -/
def specZoneNames (ls : List String) : List String :=
  (ls.map zoneNamesOfLine).foldr (· ++ ·) []

/-! ## `FindRemoteTar` (`download-iana-files.py` lines 54–81)

The remote listing (`ftp.nlst()`) is a parameter.  Every listed name is
checked for a `/` (a bogus server answer, `sys.exit(1)`); names starting with
the artifact-kind name stem and ending in `.tar.gz` are the candidates.  With
a pinned release version the exact expected file name must be a candidate;
without one the candidates are sorted in reverse lexical order and the first
is returned, or the run exits when there is none.  The three `sys.exit(1)`
sites are the spec's `ProtocolError`, `ReleaseNotFound` and the empty-listing
failure. -/

inductive SelectError where
  | protocolError : SelectError
  | releaseNotFound : SelectError
  | noFilesFound : SelectError
  deriving DecidableEq, Repr

/-- The candidate filter of `FindRemoteTar`: names starting with the
artifact-kind stem (`pfx`, e.g. `tzdata20`) and ending in `.tar.gz`, the model
of `filename.startswith(file_prefix) and filename.endswith('.tar.gz')`. -/
def isArchiveCandidate (pfx f : String) : Bool :=
  pfx.toList.isPrefixOf f.toList && ".tar.gz".toList.isSuffixOf f.toList

/-- The model of `file_prefix[0:-2]` applied when the stem ends in `20`. -/
def stripTrailing20 (pfx : String) : String :=
  if "20".toList.isSuffixOf pfx.toList then String.mk (pfx.toList.take (pfx.toList.length - 2))
  else pfx

/-- The model of `FindRemoteTar`. -/
def FindRemoteTar (listing : List String) (pfx : String) (releaseVersion : Option String) :
    Except SelectError String :=
  if listing.any (fun f => f.toList.contains '/') then .error .protocolError
  else
    let candidates := listing.filter (isArchiveCandidate pfx)
    match releaseVersion with
    | some v =>
      let expected := stripTrailing20 pfx ++ v ++ ".tar.gz"
      if expected ∈ candidates then .ok expected else .error .releaseNotFound
    | none =>
      match List.insertionSort strGe candidates with
      | [] => .error .noFilesFound
      | top :: _ => .ok top

/-! ## `DownloadAndReplaceLocalFiles` (`download-iana-files.py` lines 84–127) -/

inductive DlError where
  | select : SelectError → DlError
  | verificationError : DlError
  deriving DecidableEq, Repr

/-- The externally visible state of one local artifact directory during
`DownloadAndReplaceLocalFiles`: the published local files (name to bytes), the
record of FTP retrievals performed, and the `output_files` result list. -/
structure DlState where
  localFiles : List (String × List Nat)
  downloadCalls : List String
  outputFiles : List String
  deriving DecidableEq, Repr

/-- Modelled from the spec: `tzdatautil.GetIanaTarFile` is imported from an
external tools repository and its code is not under `src/`; per the spec's
ReleaseLocator it locates the existing local release archive for an artifact
kind — the local file whose name starts with the artifact-kind stem and ends
in the archive suffix, or none when the kind has no local baseline yet. -/
def GetIanaTarFile (files : List (String × List Nat)) (pfx : String) : Option String :=
  ((files.map Prod.fst).filter (fun n => isArchiveCandidate pfx n)).head?

/-- Writing a file: the model of `shutil.copyfile` into the local directory
(create or overwrite). -/
def setFile (files : List (String × List Nat)) (name : String) (bytes : List Nat) :
    List (String × List Nat) :=
  files.filter (fun p => p.1 ≠ name) ++ [(name, bytes)]

/-- Removing a file: the model of `os.remove`. -/
def removeFile (files : List (String × List Nat)) (name : String) :
    List (String × List Nat) :=
  files.filter (fun p => p.1 ≠ name)

/-- The download branch of `DownloadAndReplaceLocalFiles`: retrieve the remote
archive and its `.asc` signature (recorded in `downloadCalls`), verify the
signature (a `CalledProcessError` aborts, the spec's VerificationError), copy
both into the local directory, append both to `output_files`, then delete the
old local archive and its signature when they exist. -/
def fetchAndReplace (remoteBytes : String → List Nat) (sigOk : String → Bool)
    (st : DlState) (remoteName : String) (localOld : Option String) :
    Except DlError DlState :=
  let sigName := remoteName ++ ".asc"
  let st1 : DlState := { st with downloadCalls := st.downloadCalls ++ [remoteName, sigName] }
  if sigOk remoteName then
    let fs2 := setFile (setFile st1.localFiles remoteName (remoteBytes remoteName))
      sigName (remoteBytes sigName)
    let st2 : DlState :=
      { st1 with
        localFiles := fs2
        outputFiles := st1.outputFiles ++ [remoteName, sigName] }
    match localOld with
    | some oldName =>
      .ok { st2 with localFiles := removeFile (removeFile st2.localFiles oldName) (oldName ++ ".asc") }
    | none => .ok st2
  else .error .verificationError

/-- The per-artifact-kind body of `DownloadAndReplaceLocalFiles`'s loop: find
the remote release, compare it with the local baseline, and either skip
(`continue`, when the remote name is not strictly lexically newer) or download
and replace. -/
def processArtifact (listing : List String) (remoteBytes : String → List Nat)
    (sigOk : String → Bool) (releaseVersion : Option String)
    (st : DlState) (pfx : String) : Except DlError DlState :=
  match FindRemoteTar listing pfx releaseVersion with
  | .error e => .error (.select e)
  | .ok remoteName =>
    match GetIanaTarFile st.localFiles pfx with
    | some localName =>
      if strLe remoteName localName then .ok st
      else fetchAndReplace remoteBytes sigOk st remoteName (some localName)
    | none => fetchAndReplace remoteBytes sigOk st remoteName none

/-- The model of `DownloadAndReplaceLocalFiles` over the requested artifact
kinds. -/
def DownloadAndReplaceLocalFiles (pfxs : List String) (listing : List String)
    (remoteBytes : String → List Nat) (sigOk : String → Bool)
    (releaseVersion : Option String) (st : DlState) : Except DlError DlState :=
  match pfxs with
  | [] => .ok st
  | p :: ps =>
    match processArtifact listing remoteBytes sigOk releaseVersion st p with
    | .error e => .error e
    | .ok st2 => DownloadAndReplaceLocalFiles ps listing remoteBytes sigOk releaseVersion st2

/-! ## Helper lemmas -/

/-- A listing without any matching patch file leaves `applyGo` untouched. -/
theorem applyGo_nonmatching (pexit : String → Nat) (listing : List String)
    (b : Bool) (acc : List String) (h : ∀ f ∈ listing, patchTarget f = none) :
    applyGo pexit listing b acc = .ok (b, acc.reverse) := by
  induction listing with
  | nil => rfl
  | cons f fs ih =>
    have hf : patchTarget f = none := h f (List.mem_cons_self f fs)
    simp only [applyGo, hf]
    exact ih fun g hg => h g (List.mem_cons_of_mem f hg)

/-! ## Claims about the patch engine -/

/-- C1: the spec claims patches are applied in ascending order of the numeric
priority embedded in their identifiers.  `applyPatchesTo` iterates the raw
`os.listdir` result without sorting it, so patches are applied in directory
enumeration order: when the OS enumerates `2-f.patch` before `1-f.patch` (a
legal `os.listdir` answer), the priority-2 patch is applied before the
priority-1 patch. -/
theorem applyPatchesTo_enumeration_order :
    applyPatchesTo ["2-f.patch", "1-f.patch"] (fun _ => 0)
        = .ok (true, ["2-f.patch", "1-f.patch"]) ∧
    patchPriority "2-f.patch" = 2 ∧ patchPriority "1-f.patch" = 1 :=
  ⟨rfl, rfl, rfl⟩

/-- C2 counterexample: a world whose published patched directory holds the
previous run's archive, a patches directory with three patches of which the
second fails.  `Apply` aborts before any `repack` (the error world records no
repack call) — but the published patched directory has already been emptied,
so the previously published patched archive is not byte-identical to its
pre-run state. -/
theorem apply_fail_erases_published :
    Apply ⟨[("tzdata2023a.tar.gz", [9])], [("tzdata2023a.tar.gz", [1, 2])], []⟩
        "original/tzdata2023a.tar.gz" ["1-a.patch", "2-b.patch", "3-c.patch"]
        (fun f => if f = "2-b.patch" then 1 else 0) [7] 0
      = .error ("Failed to apply 2-b.patch. Halting",
                ⟨[("tzdata2023a.tar.gz", [9])], [], []⟩) ∧
    ([] : List (String × List Nat)) ≠ [("tzdata2023a.tar.gz", [1, 2])] :=
  ⟨rfl, by decide⟩

/-- C2 (amended): if applying any patch returns a non-zero result, the run
aborts immediately — no repack is recorded and the original-archive directory
is untouched — but the previously published patched archive has already been
deleted: the patched directory of the final world is empty rather than equal
to its pre-run contents. -/
theorem apply_patch_failure_aborts (w : PatchWorld) (orig : String)
    (listing : List String) (pexit : String → Nat) (rb : List Nat) (te : Nat)
    (f : String) (h : applyPatchesTo listing pexit = .error f) :
    Apply w orig listing pexit rb te
      = .error ("Failed to apply " ++ f ++ ". Halting", { w with patchedDir := [] }) := by
  simp only [Apply, h]

theorem apply_patch_failure_aborts_witness :
    Apply ⟨[("a.tar.gz", [3])], [("a.tar.gz", [4])], []⟩ "dir/a.tar.gz"
        ["1-x.patch"] (fun _ => 1) [] 0
      = .error ("Failed to apply 1-x.patch. Halting", ⟨[("a.tar.gz", [3])], [], []⟩) :=
  apply_patch_failure_aborts ⟨[("a.tar.gz", [3])], [("a.tar.gz", [4])], []⟩
    "dir/a.tar.gz" ["1-x.patch"] (fun _ => 1) [] 0 "1-x.patch" rfl

/-- C5: when no patch applies (`was_patched` is false, which happens exactly
when no listing entry matches the patch-name regex), `Apply` returns the
original input archive path, records no repack call, and leaves the
original-archive directory — hence the archive bytes found at the returned
path — unchanged. -/
theorem apply_identity_when_unpatched (w : PatchWorld) (orig : String)
    (listing : List String) (pexit : String → Nat) (rb : List Nat) (te : Nat)
    (h : ∀ f ∈ listing, patchTarget f = none) :
    Apply w orig listing pexit rb te = .ok (orig, { w with patchedDir := [] }) ∧
    ({ w with patchedDir := [] } : PatchWorld).originalDir = w.originalDir ∧
    ({ w with patchedDir := [] } : PatchWorld).repackCalls = w.repackCalls ∧
    ∀ bs : List Nat, ((orig, bs) ∈ w.originalDir ↔
      (orig, bs) ∈ ({ w with patchedDir := [] } : PatchWorld).originalDir) := by
  have happ : applyPatchesTo listing pexit = .ok (false, []) := by
    have := applyGo_nonmatching pexit listing false [] h
    simpa [applyPatchesTo] using this
  refine ⟨?_, rfl, rfl, fun bs => Iff.rfl⟩
  simp [Apply, happ]

theorem apply_identity_when_unpatched_witness :
    Apply ⟨[("tzdata2023a.tar.gz", [9, 8])], [], []⟩ "original/tzdata2023a.tar.gz"
        ["README", "notes.txt"] (fun _ => 0) [7] 0
      = .ok ("original/tzdata2023a.tar.gz", ⟨[("tzdata2023a.tar.gz", [9, 8])], [], []⟩) :=
  (apply_identity_when_unpatched ⟨[("tzdata2023a.tar.gz", [9, 8])], [], []⟩
    "original/tzdata2023a.tar.gz" ["README", "notes.txt"] (fun _ => 0) [7] 0
    (by decide)).1

/-- C10 counterexample: `1-a.patch.bak` does not match the spec's pattern
`<digits>-<path>.patch` (nothing may follow the `.patch` extension), yet the
code's `re.match`, lacking an end anchor, accepts it with captured target `a`:
the file is not skipped — it is applied, counted, and a repack is performed
instead of returning the original archive. -/
theorem nonpattern_file_applied :
    fullPatchName "1-a.patch.bak" = false ∧
    patchTarget "1-a.patch.bak" = some "a" ∧
    Apply ⟨[("tzdata2023a.tar.gz", [9])], [], []⟩ "original/tzdata2023a.tar.gz"
        ["1-a.patch.bak"] (fun _ => 0) [7] 0
      = .ok ("patched/tzdata2023a.tar.gz",
             ⟨[("tzdata2023a.tar.gz", [9])], [("tzdata2023a.tar.gz", [7])],
              ["tzdata2023a.tar.gz"]⟩) :=
  ⟨rfl, rfl, rfl⟩

/-- C10 (amended): a file whose name does not match the regex
`\d+-(.*)\.patch` under Python `re.match` semantics (anchored at the start
only, so trailing characters after `.patch` are accepted) is silently skipped
and does not count as applied; when no listing entry matches in that sense,
nothing is applied and `Apply` returns the original archive path with no
repack recorded. -/
theorem nonmatching_skipped :
    (∀ (f : String) (rest : List String) (pexit : String → Nat),
      patchTarget f = none →
      applyPatchesTo (f :: rest) pexit = applyPatchesTo rest pexit) ∧
    (∀ (listing : List String) (pexit : String → Nat),
      (∀ f ∈ listing, patchTarget f = none) →
      applyPatchesTo listing pexit = .ok (false, []) ∧
      ∀ (w : PatchWorld) (orig : String) (rb : List Nat) (te : Nat),
        Apply w orig listing pexit rb te = .ok (orig, { w with patchedDir := [] })) := by
  constructor
  · intro f rest pexit hf
    simp only [applyPatchesTo, applyGo, hf]
  · intro listing pexit h
    have happ : applyPatchesTo listing pexit = .ok (false, []) := by
      have := applyGo_nonmatching pexit listing false [] h
      simpa [applyPatchesTo] using this
    refine ⟨happ, fun w orig rb te => ?_⟩
    simp [Apply, happ]

theorem nonmatching_skipped_witness :
    applyPatchesTo ["README", "1-x.diff"] (fun _ => 0)
        = applyPatchesTo ["1-x.diff"] (fun _ => 0) ∧
    Apply ⟨[("t.tar.gz", [2])], [], []⟩ "dir/t.tar.gz" ["README", "1-x.diff"]
        (fun _ => 0) [5] 0
      = .ok ("dir/t.tar.gz", ⟨[("t.tar.gz", [2])], [], []⟩) :=
  ⟨nonmatching_skipped.1 "README" ["1-x.diff"] (fun _ => 0) rfl,
   (nonmatching_skipped.2 ["README", "1-x.diff"] (fun _ => 0) (by decide)).2
     ⟨[("t.tar.gz", [2])], [], []⟩ "dir/t.tar.gz" [5] 0⟩

/-! ## Lemmas about the resolver -/

theorem specLinkLines_cons (l : String) (ls : List String) :
    specLinkLines (l :: ls) = (linkLineOfLine l).toList ++ specLinkLines ls := by
  cases h : linkLineOfLine l <;> simp [specLinkLines, List.filterMap_cons, h]

theorem specZoneNames_cons (l : String) (ls : List String) :
    specZoneNames (l :: ls) = zoneNamesOfLine l ++ specZoneNames ls := rfl

/-- A successful `setupStep` extends the accumulators by exactly the link line
and the zone names the spec assigns to the line. -/
theorem setupStep_ok_shape (acc : List String × List String) (l : String)
    (acc2 : List String × List String) (h : setupStep acc l = .ok acc2) :
    acc2.1 = acc.1 ++ (linkLineOfLine l).toList ∧
    acc2.2 = acc.2 ++ zoneNamesOfLine l := by
  unfold setupStep at h
  rcases hw : words l with _ | ⟨f0, rest⟩ <;> rw [hw] at h
  · simp only [Except.ok.injEq] at h
    subst h
    simp [linkLineOfLine, zoneNamesOfLine, hw]
  · by_cases hL : f0 = "Link"
    · subst hL
      rcases rest with _ | ⟨target, _ | ⟨name, rest3⟩⟩
      · simp at h
      · simp at h
      · simp at h
        subst h
        simp [linkLineOfLine, zoneNamesOfLine, hw]
    · by_cases hZ : f0 = "Zone"
      · subst hZ
        rcases rest with _ | ⟨name, rest2⟩
        · simp [hL] at h
        · simp [hL] at h
          subst h
          simp [linkLineOfLine, zoneNamesOfLine, hw, hL]
      · simp [hL, hZ] at h
        subst h
        simp [linkLineOfLine, zoneNamesOfLine, hw, hL, hZ]

/-- A successful collection pass produces exactly the accumulators extended by
the spec's link lines and zone names of the processed lines, in order. -/
theorem collectSetup_ok (ls : List String) (acc : List String × List String)
    (links zones : List String) (h : collectSetup ls acc = .ok (links, zones)) :
    links = acc.1 ++ specLinkLines ls ∧ zones = acc.2 ++ specZoneNames ls := by
  induction ls generalizing acc links zones with
  | nil =>
    simp only [collectSetup, Except.ok.injEq] at h
    subst h
    simp [specLinkLines, specZoneNames]
  | cons l ls ih =>
    cases hstep : setupStep acc l with
    | error e => simp [collectSetup, hstep] at h
    | ok acc2 =>
      simp only [collectSetup, hstep] at h
      obtain ⟨h1, h2⟩ := ih acc2 links zones h
      obtain ⟨hs1, hs2⟩ := setupStep_ok_shape acc l acc2 hstep
      refine ⟨?_, ?_⟩
      · rw [h1, hs1, specLinkLines_cons, List.append_assoc]
      · rw [h2, hs2, specZoneNames_cons, List.append_assoc]

theorem sortDedup_sorted (l : List String) : (sortDedup l).Sorted strLe :=
  List.sorted_insertionSort strLe l.dedup

theorem sortDedup_nodup (l : List String) : (sortDedup l).Nodup :=
  (List.perm_insertionSort strLe l.dedup).nodup_iff.mpr (List.nodup_dedup l)

theorem mem_sortDedup (s : String) (l : List String) : s ∈ sortDedup l ↔ s ∈ l :=
  (List.perm_insertionSort strLe l.dedup).mem_iff.trans (List.mem_dedup)

/-! ## Claims about the resolver -/

/-- C3 counterexample: a region file containing the malformed record line
`Link Egypt` (a `Link` line with fewer than the three expected fields) makes
the resolver raise an `IndexError` — it is not skipped silently, and the
resolver does fail on such input. -/
theorem resolver_fails_on_short_link :
    WriteSetupFile [["Link Egypt"]] = .error "IndexError: list index out of range" :=
  rfl

/-- C3 (amended): blank lines and lines whose first field is neither `Link`
nor `Zone` (comment lines included) are skipped silently; but a line starting
with `Link` that has fewer than three whitespace-delimited fields, or one
starting with `Zone` that has fewer than two, raises an `IndexError` instead
of being skipped. -/
theorem resolver_line_handling :
    (∀ (acc : List String × List String) (line : String),
      words line = [] → setupStep acc line = .ok acc) ∧
    (∀ (acc : List String × List String) (line f0 : String) (rest : List String),
      words line = f0 :: rest → f0 ≠ "Link" → f0 ≠ "Zone" →
      setupStep acc line = .ok acc) ∧
    (∀ (acc : List String × List String) (line : String) (rest : List String),
      words line = "Link" :: rest → rest.length < 2 →
      setupStep acc line = .error "IndexError: list index out of range") ∧
    (∀ (acc : List String × List String) (line : String),
      words line = ["Zone"] →
      setupStep acc line = .error "IndexError: list index out of range") := by
  refine ⟨?_, ?_, ?_, ?_⟩
  · intro acc line hw
    simp [setupStep, hw]
  · intro acc line f0 rest hw hL hZ
    simp [setupStep, hw, hL, hZ]
  · intro acc line rest hw hlen
    rcases rest with _ | ⟨t, _ | ⟨n, r⟩⟩
    · simp [setupStep, hw]
    · simp [setupStep, hw]
    · simp only [List.length_cons] at hlen
      omega
  · intro acc line hw
    simp [setupStep, hw]

theorem resolver_line_handling_witness :
    setupStep ([], []) "" = .ok ([], []) ∧
    setupStep ([], []) "# comment line" = .ok ([], []) ∧
    setupStep ([], []) "Link Egypt" = .error "IndexError: list index out of range" ∧
    setupStep ([], []) "Zone" = .error "IndexError: list index out of range" :=
  ⟨resolver_line_handling.1 ([], []) "" rfl,
   resolver_line_handling.2.1 ([], []) "# comment line" "#" ["comment", "line"] rfl
     (by decide) (by decide),
   resolver_line_handling.2.2.1 ([], []) "Link Egypt" ["Egypt"] rfl (by decide),
   resolver_line_handling.2.2.2 ([], []) "Zone" rfl⟩

/-- C6: on every input on which the resolver succeeds, the emitted setup
lines are exactly the deduplicated, lexically sorted link lines followed by
the deduplicated, lexically sorted zone names, where the link lines and the
zone names are the spec-side per-record contributions (`Zone <name>` yields
`<name>`; `Link <target> <name>` yields the rendered pair line and the alias
`<name>`); both blocks are sorted and duplicate-free, so a name that is both a
bare zone and a link alias appears exactly once in the zone-name block. -/
theorem WriteSetupFile_resolved (files : List (List String)) (out : List String)
    (h : WriteSetupFile files = .ok out) :
    out = sortDedup (specLinkLines (allLines files))
        ++ sortDedup (specZoneNames (allLines files)) ∧
    (sortDedup (specLinkLines (allLines files))).Sorted strLe ∧
    (sortDedup (specZoneNames (allLines files))).Sorted strLe ∧
    (sortDedup (specLinkLines (allLines files))).Nodup ∧
    (sortDedup (specZoneNames (allLines files))).Nodup ∧
    (∀ s, s ∈ sortDedup (specLinkLines (allLines files)) ↔
      s ∈ specLinkLines (allLines files)) ∧
    (∀ n, n ∈ sortDedup (specZoneNames (allLines files)) ↔
      n ∈ specZoneNames (allLines files)) := by
  unfold WriteSetupFile at h
  cases hc : collectSetup (allLines files) ([], []) with
  | error e => rw [hc] at h; exact absurd h (by simp)
  | ok acc =>
    rw [hc] at h
    obtain ⟨links, zones⟩ := acc
    simp only [Except.ok.injEq] at h
    obtain ⟨hl, hz⟩ := collectSetup_ok (allLines files) ([], []) links zones hc
    simp only [List.nil_append] at hl hz
    subst hl hz h
    exact ⟨rfl, sortDedup_sorted _, sortDedup_sorted _, sortDedup_nodup _,
      sortDedup_nodup _, fun s => mem_sortDedup s _, fun n => mem_sortDedup n _⟩

theorem WriteSetupFile_resolved_witness :
    (["Link Africa/Cairo Egypt", "Africa/Cairo", "Egypt"] : List String)
      = sortDedup (specLinkLines (allLines
          [["Zone Africa/Cairo\t2:00", "Link Africa/Cairo Egypt", "# c", ""],
           ["Link Africa/Cairo Egypt"]]))
        ++ sortDedup (specZoneNames (allLines
          [["Zone Africa/Cairo\t2:00", "Link Africa/Cairo Egypt", "# c", ""],
           ["Link Africa/Cairo Egypt"]])) :=
  (WriteSetupFile_resolved
    [["Zone Africa/Cairo\t2:00", "Link Africa/Cairo Egypt", "# c", ""],
     ["Link Africa/Cairo Egypt"]]
    ["Link Africa/Cairo Egypt", "Africa/Cairo", "Egypt"] rfl).1

/-! ## Claims about release selection and download -/

/-- C7: with a pinned release version, release selection returns exactly the
expected filename constructed from the artifact stem and the pinned version
when that filename is among the candidates, and fails with the ReleaseNotFound
exit when it is absent — it never substitutes the lexicographically latest
candidate. -/
theorem FindRemoteTar_pinned (listing : List String) (pfx v : String)
    (hclean : ∀ f ∈ listing, '/' ∉ f.toList) :
    (stripTrailing20 pfx ++ v ++ ".tar.gz" ∈ listing.filter (isArchiveCandidate pfx) →
      FindRemoteTar listing pfx (some v) = .ok (stripTrailing20 pfx ++ v ++ ".tar.gz")) ∧
    (stripTrailing20 pfx ++ v ++ ".tar.gz" ∉ listing.filter (isArchiveCandidate pfx) →
      FindRemoteTar listing pfx (some v) = .error .releaseNotFound) := by
  have hany : listing.any (fun f => f.toList.contains '/') = false := by
    simp only [List.any_eq_false]
    intro f hf
    simpa using hclean f hf
  constructor
  · intro hmem
    unfold FindRemoteTar
    rw [hany]
    simp [hmem]
  · intro hmem
    unfold FindRemoteTar
    rw [hany]
    simp [hmem]

theorem FindRemoteTar_pinned_witness :
    FindRemoteTar ["tzdata2023c.tar.gz", "tzdata2023d.tar.gz"] "tzdata" (some "2023c")
      = .ok "tzdata2023c.tar.gz" ∧
    FindRemoteTar ["tzdata2023a.tar.gz", "tzdata2023b.tar.gz"] "tzdata" (some "2023c")
      = .error .releaseNotFound :=
  ⟨(FindRemoteTar_pinned ["tzdata2023c.tar.gz", "tzdata2023d.tar.gz"] "tzdata" "2023c"
      (by decide)).1 (by decide),
   (FindRemoteTar_pinned ["tzdata2023a.tar.gz", "tzdata2023b.tar.gz"] "tzdata" "2023c"
      (by decide)).2 (by decide)⟩

/-- C8: with no pinned version and a non-empty candidate set, release
selection succeeds and returns a lexicographically maximal candidate. -/
theorem FindRemoteTar_latest (listing : List String) (pfx : String)
    (hclean : ∀ f ∈ listing, '/' ∉ f.toList)
    (hne : listing.filter (isArchiveCandidate pfx) ≠ []) :
    ∃ top, FindRemoteTar listing pfx none = .ok top ∧
      top ∈ listing.filter (isArchiveCandidate pfx) ∧
      ∀ c ∈ listing.filter (isArchiveCandidate pfx), strLe c top := by
  have hany : listing.any (fun f => f.toList.contains '/') = false := by
    simp only [List.any_eq_false]
    intro f hf
    simpa using hclean f hf
  cases hs : List.insertionSort strGe (listing.filter (isArchiveCandidate pfx)) with
  | nil =>
    exfalso
    apply hne
    have hp := List.perm_insertionSort strGe (listing.filter (isArchiveCandidate pfx))
    rw [hs] at hp
    exact hp.symm.eq_nil
  | cons top rest =>
    have hp := List.perm_insertionSort strGe (listing.filter (isArchiveCandidate pfx))
    rw [hs] at hp
    have hsorted := List.sorted_insertionSort strGe (listing.filter (isArchiveCandidate pfx))
    rw [hs] at hsorted
    refine ⟨top, ?_, ?_, ?_⟩
    · unfold FindRemoteTar
      rw [hany]
      simp [hs]
    · exact hp.mem_iff.mp (List.mem_cons_self top rest)
    · intro c hcmem
      rcases List.mem_cons.mp (hp.mem_iff.mpr hcmem) with rfl | hmem
      · exact strLe_refl c
      · exact (List.sorted_cons.mp hsorted).1 c hmem

theorem FindRemoteTar_latest_witness :
    ∃ top, FindRemoteTar ["tzdata2023a.tar.gz", "tzdata2023b.tar.gz"] "tzdata" none
        = .ok top ∧
      top ∈ ["tzdata2023a.tar.gz", "tzdata2023b.tar.gz"].filter (isArchiveCandidate "tzdata") ∧
      ∀ c ∈ ["tzdata2023a.tar.gz", "tzdata2023b.tar.gz"].filter (isArchiveCandidate "tzdata"),
        strLe c top :=
  FindRemoteTar_latest ["tzdata2023a.tar.gz", "tzdata2023b.tar.gz"] "tzdata"
    (by decide) (by decide)

/-- C9: for an artifact kind whose local baseline exists and whose selected
remote filename is not lexically strictly greater than the local filename,
the loop body of `DownloadAndReplaceLocalFiles` performs no writes at all for
that artifact — the local published files, the download record and the output
list are returned unchanged — and the outcome is the `continue` success, not
an error. -/
theorem already_current_noop (listing : List String) (remoteBytes : String → List Nat)
    (sigOk : String → Bool) (rv : Option String) (st : DlState)
    (pfx remoteName localName : String)
    (hfind : FindRemoteTar listing pfx rv = .ok remoteName)
    (hlocal : GetIanaTarFile st.localFiles pfx = some localName)
    (hle : strLe remoteName localName) :
    processArtifact listing remoteBytes sigOk rv st pfx = .ok st := by
  simp [processArtifact, hfind, hlocal, hle]

theorem already_current_noop_witness :
    processArtifact ["tzdata2023a.tar.gz"] (fun _ => [5]) (fun _ => true) none
        ⟨[("tzdata2023a.tar.gz", [0]), ("tzdata2023a.tar.gz.asc", [1])], [], []⟩ "tzdata20"
      = .ok ⟨[("tzdata2023a.tar.gz", [0]), ("tzdata2023a.tar.gz.asc", [1])], [], []⟩ :=
  already_current_noop ["tzdata2023a.tar.gz"] (fun _ => [5]) (fun _ => true) none
    ⟨[("tzdata2023a.tar.gz", [0]), ("tzdata2023a.tar.gz.asc", [1])], [], []⟩
    "tzdata20" "tzdata2023a.tar.gz" "tzdata2023a.tar.gz" rfl rfl (by decide)

/-! ## Claim about repack determinism -/

/-- After the epoch `touch`, a pax record depends only on the
environment-independent view of the entry. -/
theorem paxOf_touchEpoch (e : TarEntry) : paxOf (touchEpoch e) = recOf (normView e) := rfl

/-- The repacked record stream is a permutation of the per-entry records
computed from the environment-independent views. -/
theorem repackRecords_perm (t : List TarEntry) :
    (repackRecords t).Perm ((t.map normView).map recOf) := by
  unfold repackRecords
  rw [List.map_map]
  have h1 := (List.perm_insertionSort entryLe (t.map touchEpoch)).map paxOf
  rw [List.map_map] at h1
  have h2 : paxOf ∘ touchEpoch = recOf ∘ normView := funext fun e => rfl
  rwa [h2] at h1

/-- The repacked record stream is sorted by entry name. -/
theorem repackRecords_sorted (t : List TarEntry) :
    (repackRecords t).Pairwise (fun p q : PaxRecord => strLe p.name q.name) := by
  unfold repackRecords
  exact List.Pairwise.map paxOf (fun a b hab => hab)
    (List.sorted_insertionSort entryLe (t.map touchEpoch))

/-- The names of the repacked records are a permutation of the names of the
working tree. -/
theorem repackRecords_names (t : List TarEntry) :
    ((repackRecords t).map PaxRecord.name).Perm (t.map TarEntry.name) := by
  have h := (repackRecords_perm t).map PaxRecord.name
  rw [List.map_map, List.map_map] at h
  have h2 : (PaxRecord.name ∘ recOf) ∘ normView = TarEntry.name := funext fun e => rfl
  rwa [h2] at h

/-- Ordering of pax records used to prove uniqueness of the sorted stream:
strictly increasing names, or identical records. -/
def paxKeyOrder (p q : PaxRecord) : Prop :=
  (strLe p.name q.name ∧ p.name ≠ q.name) ∨ p = q

instance : IsAntisymm PaxRecord paxKeyOrder := by
  refine ⟨fun a b hab hba => ?_⟩
  rcases hab with ⟨hle1, hne1⟩ | rfl
  · rcases hba with ⟨hle2, _⟩ | h
    · exact absurd (strLe_antisymm hle1 hle2) hne1
    · exact h.symm
  · rfl

/-- A name-sorted record stream with no duplicate names is sorted under
`paxKeyOrder`. -/
theorem repackRecords_sorted_key (t : List TarEntry)
    (hnd : (t.map TarEntry.name).Nodup) :
    (repackRecords t).Pairwise paxKeyOrder := by
  have hnames : ((repackRecords t).map PaxRecord.name).Nodup :=
    (repackRecords_names t).nodup_iff.mpr hnd
  have hne : (repackRecords t).Pairwise (fun p q : PaxRecord => p.name ≠ q.name) :=
    List.pairwise_map.mp hnames
  exact ((repackRecords_sorted t).and hne).imp fun h => Or.inl h

/-- C4: repacking is deterministic.  If two working trees carry the same
multiset of (name, content, permission-mode) triples — arbitrary enumeration
order, arbitrary access/modification times, arbitrary numeric owner and group,
i.e. bit-identical trees regardless of wall-clock time or environment — and
tree names are unique (as directory entries are), then the repacked archives
are byte-identical: mtimes are normalised to the fixed epoch, owner and group
are forced to 0:0, modes pass through the fixed `go+u,go-w` policy, entries
are emitted sorted by name, and the compression parameters are fixed. -/
theorem repack_deterministic (t1 t2 : List TarEntry)
    (hperm : (t1.map normView).Perm (t2.map normView))
    (hnodup : (t1.map TarEntry.name).Nodup) :
    repack t1 = repack t2 := by
  have hnamesperm : (t1.map TarEntry.name).Perm (t2.map TarEntry.name) := by
    have h := hperm.map (fun v : String × List Nat × Nat => v.1)
    rw [List.map_map, List.map_map] at h
    have h2 : (fun v : String × List Nat × Nat => v.1) ∘ normView = TarEntry.name :=
      funext fun e => rfl
    rwa [h2] at h
  have hnodup2 : (t2.map TarEntry.name).Nodup := hnamesperm.nodup_iff.mp hnodup
  have hperm12 : (repackRecords t1).Perm (repackRecords t2) :=
    (repackRecords_perm t1).trans ((hperm.map recOf).trans (repackRecords_perm t2).symm)
  have heq : repackRecords t1 = repackRecords t2 :=
    List.eq_of_perm_of_sorted hperm12
      (repackRecords_sorted_key t1 hnodup) (repackRecords_sorted_key t2 hnodup2)
  unfold repack
  rw [heq]

theorem repack_deterministic_witness :
    repack [⟨"zone.tab", [1, 2], 11, 12, 1000, 1000, 420⟩,
            ⟨"africa", [3], 13, 14, 1000, 1000, 493⟩]
      = repack [⟨"africa", [3], 99, 98, 0, 0, 493⟩,
                ⟨"zone.tab", [1, 2], 97, 96, 501, 20, 420⟩] :=
  repack_deterministic
    [⟨"zone.tab", [1, 2], 11, 12, 1000, 1000, 420⟩,
     ⟨"africa", [3], 13, 14, 1000, 1000, 493⟩]
    [⟨"africa", [3], 99, 98, 0, 0, 493⟩,
     ⟨"zone.tab", [1, 2], 97, 96, 501, 20, 420⟩]
    (by decide) (by decide)
